import Mathlib

/-!
Shallow embedding of `src/pr-delta/pr_delta.py` (chenthilvel/chen-tools).

The program is a linear pipeline: parse a PR/MR URL, fetch changed files,
classify/filter them (test-file and config-file heuristics), aggregate
addition/deletion/change totals, and render a table.  The network layer
(`requests`) and CLI parsing are external; everything else is embedded here:

* `is_test_file` / `is_config_file`  — classification heuristics (lines 8-23);
* `extract_pr_info`                  — URL resolver (lines 25-51);
* the GitLab diff-line counter inside `fetch_mr_files_gitlab` (lines 92-104),
  embedded as `count_diff_lines` / `normalize_gitlab_diff`;
* `summarize_files`                  — classifier/aggregator (lines 106-137);
* `truncate_middle`                  — path formatter (lines 139-144).

Python strings are modelled as Lean `String` (a list of characters; lengths
and slices agree for the ASCII data involved), Python non-negative ints as
`Nat`, the signed `net_change` as `Int`, and `raise ValueError` as
`Except.error`.
-/

namespace PrDelta

/-- Character-list prefix test: `matchAt p s` is true when `p` is a prefix of
`s`.  Used to embed Python `str.startswith` and `re`-pattern substring
search over explicit character lists. -/
def matchAt : List Char → List Char → Bool
  | [], _ => true
  | _ :: _, [] => false
  | c :: cs, d :: ds => c == d && matchAt cs ds

/-- Substring search: `findSub p s` is true when `p` occurs (contiguously)
somewhere in `s`. -/
def findSub (p : List Char) : List Char → Bool
  | [] => matchAt p []
  | c :: cs => matchAt p (c :: cs) || findSub p cs

/-- Python `needle in hay` on strings (contiguous substring test). -/
def strContains (hay needle : String) : Bool :=
  findSub needle.data hay.data

/-- Python `hay.startswith(needle)`. -/
def startsWithStr (hay needle : String) : Bool :=
  matchAt needle.data hay.data

/-- Python `s.lower()` (ASCII case folding, which is all the patterns use). -/
def toLowerStr (s : String) : String :=
  String.mk (s.data.map Char.toLower)

/-- Test-file heuristic, embedding `is_test_file` (pr_delta.py lines 19-20)
over `EXCLUDE_PATTERNS` (lines 8-14).  Each pattern is a case-insensitive
`re.search`, i.e. a substring match on the lowercased path:
`.*/test[s]?/.*` ⇝ contains `/test/` or `/tests/`; `.*test.*` ⇝ contains
`test`; `.*spec.*` ⇝ contains `spec`; `.*_test\..*` ⇝ contains `_test.`;
`.*_spec\..*` ⇝ contains `_spec.`. -/
def is_test_file (path : String) : Bool :=
  let p := toLowerStr path
  (strContains p "/test/" || strContains p "/tests/")
    || strContains p "test"
    || strContains p "spec"
    || strContains p "_test."
    || strContains p "_spec."

/-- `CONFIG_EXTENSIONS` (pr_delta.py line 17). -/
def CONFIG_EXTENSIONS : List String :=
  [".yml", ".yaml", ".json", ".toml", ".xml", ".properties", ".conf", ".cfg", ".ini"]

/-- Ends-with test on strings (Python `str.endswith` for a single suffix). -/
def endsWithStr (hay needle : String) : Bool :=
  matchAt needle.data.reverse hay.data.reverse

/-- `is_config_file` (pr_delta.py lines 22-23): `path.endswith(CONFIG_EXTENSIONS)`. -/
def is_config_file (path : String) : Bool :=
  CONFIG_EXTENSIONS.any (fun ext => endsWithStr path ext)

/-- Platform tag returned by the URL resolver. -/
inductive Platform where
  | github
  | gitlab
deriving DecidableEq, Repr

/-- Python `s.strip('/')`: drop every leading and trailing `'/'`. -/
def stripSlash (s : String) : String :=
  String.mk (((s.data.dropWhile (fun c => c == '/')).reverse.dropWhile
    (fun c => c == '/')).reverse)

/-- Split a character list at every occurrence of `sep`, keeping empty
pieces — the semantics of Python `str.split` with a one-character separator,
including `"".split('/') == [""]`. -/
def splitChar (sep : Char) : List Char → List Char → List String
  | [], acc => [String.mk acc.reverse]
  | c :: cs, acc =>
    if c == sep then String.mk acc.reverse :: splitChar sep cs []
    else splitChar sep cs (c :: acc)

/-- `parsed.path.strip('/').split('/')` (pr_delta.py line 28). -/
def splitPath (path : String) : List String :=
  splitChar '/' (stripSlash path).data []

/-- Python `'/'.join(parts)`. -/
def joinSlash : List String → String
  | [] => ""
  | [s] => s
  | s :: rest => s ++ "/" ++ joinSlash rest

/-- URL resolver `extract_pr_info` (pr_delta.py lines 25-51).  `urlparse` is
Python stdlib (external): the function consumes only `parsed.netloc` and
`parsed.path`, so the embedding takes those two components directly.
`raise ValueError(msg)` becomes `Except.error msg`.  Python's negative index
`path_parts[-2]` is `getD (length - 2)` (defined since the guard ensures
`length ≥ 4`), and the destructuring `owner, repo, _, pr_number =
path_parts[:4]` is `getD 0 / getD 1 / getD 3`.  The integer tests
`mr_idx-3 >= 0` and `mr_idx-3 > 0` (Python ints) are `3 ≤ mr_idx` and
`3 < mr_idx`. -/
def extract_pr_info (netloc path : String) :
    Except String (Platform × String × String × String) :=
  let host := toLowerStr netloc
  let path_parts := splitPath path
  if strContains host "github.com" then
    if path_parts.length < 4 then Except.error "Invalid GitHub PR URL"
    else if path_parts.getD (path_parts.length - 2) "" ≠ "pull" then
      Except.error "Invalid GitHub PR URL"
    else
      Except.ok (Platform.github, path_parts.getD 0 "", path_parts.getD 1 "",
        path_parts.getD 3 "")
  else if strContains host "gitlab.com" then
    if ¬ path_parts.contains "merge_requests" then Except.error "Invalid GitLab MR URL"
    else
      let mr_idx := path_parts.findIdx (fun s => s == "merge_requests")
      if mr_idx < 2 ∨ mr_idx + 1 ≥ path_parts.length then
        Except.error "Invalid GitLab MR URL"
      else
        let repo := path_parts.getD (mr_idx - 2) ""
        let owner0 := if 3 ≤ mr_idx then path_parts.getD (mr_idx - 3) "" else ""
        let owner := if 3 < mr_idx then joinSlash (path_parts.take (mr_idx - 2))
          else owner0
        Except.ok (Platform.gitlab, owner, repo, path_parts.getD (mr_idx + 1) "")
  else Except.error "Unsupported URL: Only GitHub and GitLab are supported."

/-- Condition under which a diff line counts as an addition
(pr_delta.py line 95): starts with `+` but not with `+++`. -/
def isAddLine (line : String) : Bool :=
  startsWithStr line "+" && !(startsWithStr line "+++")

/-- Condition under which a diff line counts as a deletion
(pr_delta.py line 97): starts with `-` but not with `---`. -/
def isDelLine (line : String) : Bool :=
  startsWithStr line "-" && !(startsWithStr line "---")

/-- Body of the counting loop (pr_delta.py lines 94-98): the `elif` counts a
deletion only when the addition test failed. -/
def countStep (acc : Nat × Nat) (line : String) : Nat × Nat :=
  if isAddLine line then (acc.1 + 1, acc.2)
  else if isDelLine line then (acc.1, acc.2 + 1)
  else acc

/-- The `added`/`deleted` counting loop of `fetch_mr_files_gitlab`
(pr_delta.py lines 93-98), over an explicit list of lines. -/
def count_diff_lines (lines : List String) : Nat × Nat :=
  lines.foldl countStep (0, 0)

/-- Python `str.splitlines` for `\n`-separated diff text, modelled as
splitting at every `'\n'`.  (For text with a trailing newline, `splitlines`
omits the final empty piece while this split keeps it; an empty line matches
neither counting condition, so the counts are unaffected.) -/
def splitlines (s : String) : List String :=
  splitChar '\n' s.data []

/-- Normalization of one GitLab change entry (pr_delta.py lines 93-104):
count additions and deletions from the diff text and set
`changes = added + deleted`. -/
def normalize_gitlab_diff (diff : String) : Nat × Nat × Nat :=
  let ad := count_diff_lines (splitlines diff)
  (ad.1, ad.2, ad.1 + ad.2)

/-- One record of the GitHub-shaped changed-file list consumed by
`summarize_files` (keys `filename`, `additions`, `deletions`, `changes`). -/
structure ChangedFile where
  filename : String
  additions : Nat
  deletions : Nat
  changes : Nat
deriving DecidableEq, Repr

/-- One record of the per-file output list built by `summarize_files`
(pr_delta.py lines 126-133). -/
structure ClassifiedFile where
  path : String
  additions : Nat
  deletions : Nat
  changes : Nat
  net_change : Int
  is_config : Bool
deriving DecidableEq, Repr

/-- The per-file classification performed in the loop body of
`summarize_files` (pr_delta.py lines 118-133). -/
def classify (file : ChangedFile) : ClassifiedFile :=
  { path := file.filename
    additions := file.additions
    deletions := file.deletions
    changes := file.changes
    net_change := (file.additions : Int) - (file.deletions : Int)
    is_config := is_config_file file.filename }

/-- Loop body of `summarize_files`: skip the file when
`not include_tests and is_test_file(path)`, otherwise add its counts to the
running totals and append its classified record. -/
def stepSum (include_tests : Bool)
    (acc : Nat × Nat × Nat × List ClassifiedFile) (file : ChangedFile) :
    Nat × Nat × Nat × List ClassifiedFile :=
  if !include_tests && is_test_file file.filename then acc
  else
    (acc.1 + file.additions, acc.2.1 + file.deletions, acc.2.2.1 + file.changes,
      acc.2.2.2 ++ [classify file])

/-- `summarize_files` (pr_delta.py lines 106-137): a single left-to-right
pass accumulating `(total_added, total_deleted, total_changes, file_changes)`
from `(0, 0, 0, [])`.  The Python default for `include_tests` is `false`;
the embedding passes it explicitly. -/
def summarize_files (files : List ChangedFile) (include_tests : Bool) :
    Nat × Nat × Nat × List ClassifiedFile :=
  files.foldl (stepSum include_tests) (0, 0, 0, [])

/-- The retention predicate implicit in `summarize_files`: a file is kept
unless `include_tests` is false and it matches the test heuristic. -/
def keep (include_tests : Bool) (file : ChangedFile) : Bool :=
  !(!include_tests && is_test_file file.filename)

/-- Python `s.ljust(width)`: pad on the right with spaces to `width`
(no-op when the string is already at least `width` long). -/
def ljust (s : String) (width : Nat) : String :=
  s ++ String.mk (List.replicate (width - s.length) ' ')

/-- Python slice `path[:n]` for `n ≥ 0`. -/
def strTake (s : String) (n : Nat) : String :=
  String.mk (s.data.take n)

/-- Python slice `path[-n:]` for `n ≥ 0`: the last `n` characters — except
that `path[-0:]` is the whole string (Python treats `-0` as `0`). -/
def strTakeEnd (s : String) (n : Nat) : String :=
  if n = 0 then s else String.mk (s.data.drop (s.length - n))

/-- `truncate_middle` (pr_delta.py lines 139-144).  The Python default for
`max_length` is 60 (the only call site uses the default); the embedding
passes it explicitly. -/
def truncate_middle (path : String) (max_length : Nat) : String :=
  if path.length ≤ max_length then ljust path max_length
  else
    let part_len := (max_length - 3) / 2
    ljust (strTake path part_len ++ "..." ++ strTakeEnd path part_len) max_length

/-- A string all of whose characters are decimal digits. -/
def allDigits (s : String) : Bool :=
  s.data.all Char.isDigit

/-- Projection of a classified record back to the changed-file shape it was
built from (`path` is the classified name of the input `filename`). -/
def toChangedFile (c : ClassifiedFile) : ChangedFile :=
  { filename := c.path
    additions := c.additions
    deletions := c.deletions
    changes := c.changes }

/-! ### Characterization of the aggregation loop -/

theorem foldl_stepSum (t : Bool) (files : List ChangedFile)
    (a d c : Nat) (l : List ClassifiedFile) :
    files.foldl (stepSum t) (a, d, c, l) =
      (a + ((files.filter (keep t)).map ChangedFile.additions).sum,
       d + ((files.filter (keep t)).map ChangedFile.deletions).sum,
       c + ((files.filter (keep t)).map ChangedFile.changes).sum,
       l ++ (files.filter (keep t)).map classify) := by
  induction files generalizing a d c l with
  | nil => simp
  | cons f fs ih =>
    by_cases h : (!t && is_test_file f.filename) = true
    · have hk : keep t f = false := by simp [keep, h]
      simp only [List.foldl_cons, stepSum, if_pos h, List.filter_cons, hk,
        Bool.false_eq_true, if_false, ih]
    · have hb : (!t && is_test_file f.filename) = false := by simpa using h
      have hk : keep t f = true := by simp [keep, hb]
      simp only [List.foldl_cons, stepSum, if_neg h, List.filter_cons, hk,
        if_true, List.map_cons, List.sum_cons, ih]
      simp [Nat.add_assoc]

/-- The loop of `summarize_files` computes exactly: totals are the sums of the
retained files' fields, and the detail list is the classified retained files
in input order. -/
theorem summarize_files_eq (files : List ChangedFile) (t : Bool) :
    summarize_files files t =
      (((files.filter (keep t)).map ChangedFile.additions).sum,
       ((files.filter (keep t)).map ChangedFile.deletions).sum,
       ((files.filter (keep t)).map ChangedFile.changes).sum,
       (files.filter (keep t)).map classify) := by
  simpa using foldl_stepSum t files 0 0 0 []

theorem sum_map_add_split (l : List ChangedFile) :
    (l.map (fun f => f.additions + f.deletions)).sum =
      (l.map ChangedFile.additions).sum + (l.map ChangedFile.deletions).sum := by
  induction l with
  | nil => rfl
  | cons f fs ih => simp [ih]; omega

/-! ### Characterization of the diff-line counting loop -/

theorem del_line_not_add (line : String) (h : isDelLine line = true) :
    isAddLine line = false := by
  unfold isDelLine startsWithStr at h
  unfold isAddLine startsWithStr
  rw [show ("-" : String).data = ['-'] from rfl] at h
  rw [show ("+" : String).data = ['+'] from rfl]
  cases hd : line.data with
  | nil => simp [matchAt]
  | cons c cs =>
    rw [hd] at h
    simp only [Bool.and_eq_true] at h
    have hc : c = '-' := by
      have h1 := h.1
      simp [matchAt] at h1
      exact h1.symm
    simp [matchAt, hc]

theorem foldl_countStep (lines : List String) (a d : Nat) :
    lines.foldl countStep (a, d) =
      (a + (lines.filter isAddLine).length, d + (lines.filter isDelLine).length) := by
  induction lines generalizing a d with
  | nil => simp
  | cons l ls ih =>
    rw [List.foldl_cons]
    by_cases h1 : isAddLine l = true
    · have h2 : isDelLine l = false := by
        cases h2 : isDelLine l with
        | false => rfl
        | true => rw [del_line_not_add l h2] at h1; exact absurd h1 (by simp)
      rw [show countStep (a, d) l = (a + 1, d) from by simp [countStep, h1], ih]
      rw [show (l :: ls).filter isAddLine = l :: ls.filter isAddLine from by
        simp [List.filter_cons, h1]]
      rw [show (l :: ls).filter isDelLine = ls.filter isDelLine from by
        simp [List.filter_cons, h2]]
      simp only [List.length_cons, Prod.mk.injEq]
      exact ⟨by omega, trivial⟩
    · have h1f : isAddLine l = false := by simpa using h1
      rw [show (l :: ls).filter isAddLine = ls.filter isAddLine from by
        simp [List.filter_cons, h1f]]
      by_cases h2 : isDelLine l = true
      · rw [show countStep (a, d) l = (a, d + 1) from by simp [countStep, h1f, h2], ih]
        rw [show (l :: ls).filter isDelLine = l :: ls.filter isDelLine from by
          simp [List.filter_cons, h2]]
        simp only [List.length_cons, Prod.mk.injEq]
        exact ⟨trivial, by omega⟩
      · have h2f : isDelLine l = false := by simpa using h2
        rw [show countStep (a, d) l = (a, d) from by simp [countStep, h1f, h2f], ih]
        rw [show (l :: ls).filter isDelLine = ls.filter isDelLine from by
          simp [List.filter_cons, h2f]]

/-! ### Claim theorems -/

/-- C1: for every input sequence of changed-file records satisfying the
`ChangedFile` invariant `changes = additions + deletions` (established by the
fetch/normalization step) and every value of `include_tests`, the summary's
`total_changes` equals the sum of the retained files' `changes` fields, and
equals `total_added + total_deleted`. -/
theorem summarize_totals_additive (files : List ChangedFile) (t : Bool)
    (hinv : ∀ f ∈ files, f.changes = f.additions + f.deletions) :
    (summarize_files files t).2.2.1 =
        ((summarize_files files t).2.2.2.map ClassifiedFile.changes).sum ∧
    (summarize_files files t).2.2.1 =
        (summarize_files files t).1 + (summarize_files files t).2.1 := by
  rw [summarize_files_eq]
  constructor
  · rw [List.map_map]
    rfl
  · have hcong : (files.filter (keep t)).map ChangedFile.changes =
        (files.filter (keep t)).map (fun f => f.additions + f.deletions) :=
      List.map_congr_left (fun f hf => hinv f (List.mem_of_mem_filter hf))
    rw [hcong, sum_map_add_split]

/-- Witness for C1 at a concrete two-file input with `include_tests = false`. -/
theorem summarize_totals_additive_witness :
    (∀ f ∈ [ChangedFile.mk "src/main.go" 10 2 12, ChangedFile.mk "docs/a.md" 3 4 7],
        f.changes = f.additions + f.deletions) ∧
    ((summarize_files [ChangedFile.mk "src/main.go" 10 2 12,
          ChangedFile.mk "docs/a.md" 3 4 7] false).2.2.1 =
        ((summarize_files [ChangedFile.mk "src/main.go" 10 2 12,
            ChangedFile.mk "docs/a.md" 3 4 7] false).2.2.2.map
          ClassifiedFile.changes).sum ∧
      (summarize_files [ChangedFile.mk "src/main.go" 10 2 12,
          ChangedFile.mk "docs/a.md" 3 4 7] false).2.2.1 =
        (summarize_files [ChangedFile.mk "src/main.go" 10 2 12,
            ChangedFile.mk "docs/a.md" 3 4 7] false).1 +
          (summarize_files [ChangedFile.mk "src/main.go" 10 2 12,
              ChangedFile.mk "docs/a.md" 3 4 7] false).2.1) :=
  ⟨by decide, summarize_totals_additive _ false (by decide)⟩

/-- C2: with `include_tests = false` the aggregator retains (classified, in
order) exactly the files whose paths fail the test heuristic, and the totals
are the sums over those retained files only; with `include_tests = true`
every input file is retained and classified.  The concrete scenario from the
spec evaluates to totals `(10, 2, 12)` with only `src/main.go` retained. -/
theorem summarize_drops_tests :
    (∀ files : List ChangedFile,
        summarize_files files false =
          (((files.filter (fun f => !is_test_file f.filename)).map
              ChangedFile.additions).sum,
           ((files.filter (fun f => !is_test_file f.filename)).map
              ChangedFile.deletions).sum,
           ((files.filter (fun f => !is_test_file f.filename)).map
              ChangedFile.changes).sum,
           (files.filter (fun f => !is_test_file f.filename)).map classify)) ∧
    (∀ files : List ChangedFile,
        summarize_files files true =
          ((files.map ChangedFile.additions).sum,
           (files.map ChangedFile.deletions).sum,
           (files.map ChangedFile.changes).sum,
           files.map classify)) ∧
    summarize_files [ChangedFile.mk "src/main.go" 10 2 12,
        ChangedFile.mk "test/main_test.go" 5 1 6] false =
      (10, 2, 12, [ClassifiedFile.mk "src/main.go" 10 2 12 8 false]) := by
  have hkf : keep false = fun f => !is_test_file f.filename := by
    funext f
    simp [keep]
  have hkt : keep true = fun _ => true := by
    funext f
    simp [keep]
  refine ⟨fun files => ?_, fun files => ?_, by decide⟩
  · rw [summarize_files_eq, hkf]
  · rw [summarize_files_eq, hkt]
    simp

/-- C8: the aggregator is a stable pointwise filter — the retained list
(read back as changed-file records) is a subsequence of the input in the
input's order, and feeding the retained files through `summarize_files`
again with the same `include_tests` value reproduces the same summary
(in particular the same retained set). -/
theorem summarize_stable_idempotent (files : List ChangedFile) (t : Bool) :
    ((summarize_files files t).2.2.2.map toChangedFile).Sublist files ∧
    summarize_files ((summarize_files files t).2.2.2.map toChangedFile) t =
      summarize_files files t := by
  have hmap : ((files.filter (keep t)).map classify).map toChangedFile =
      files.filter (keep t) := by
    rw [List.map_map]
    exact List.map_id _
  have hff : (files.filter (keep t)).filter (keep t) = files.filter (keep t) := by
    rw [List.filter_filter]
    simp
  constructor
  · rw [summarize_files_eq]
    show (((files.filter (keep t)).map classify).map toChangedFile).Sublist files
    rw [hmap]
    exact List.filter_sublist files
  · conv_lhs => rw [summarize_files_eq files t]
    show summarize_files (((files.filter (keep t)).map classify).map toChangedFile) t = _
    rw [hmap, summarize_files_eq, summarize_files_eq, hff]

/-- C3: the GitLab normalization counts as additions exactly the diff lines
beginning with `+` but not `+++`, as deletions exactly the lines beginning
with `-` but not `---`, and sets `changes = additions + deletions`; on the
spec's concrete diff text the result is `(2, 1, 3)`. -/
theorem gitlab_diff_counts :
    (∀ diff : String,
        (normalize_gitlab_diff diff).1 =
            ((splitlines diff).filter isAddLine).length ∧
        (normalize_gitlab_diff diff).2.1 =
            ((splitlines diff).filter isDelLine).length ∧
        (normalize_gitlab_diff diff).2.2 =
            (normalize_gitlab_diff diff).1 + (normalize_gitlab_diff diff).2.1) ∧
    normalize_gitlab_diff "+++ b/f\n+foo\n--- a/f\n-bar\n+baz" = (2, 1, 3) := by
  refine ⟨fun diff => ?_, by decide⟩
  unfold normalize_gitlab_diff count_diff_lines
  rw [foldl_countStep]
  exact ⟨by simp, by simp, rfl⟩

/-- C4: a URL whose lowercased network location contains `github.com` and
whose path has exactly the four segments `owner/repo/pull/number` resolves
to `(github, owner, repo, number)`. -/
theorem github_url_resolution (netloc path owner repo num : String)
    (hhost : strContains (toLowerStr netloc) "github.com" = true)
    (hpath : splitPath path = [owner, repo, "pull", num]) :
    extract_pr_info netloc path = Except.ok (Platform.github, owner, repo, num) := by
  unfold extract_pr_info
  simp only [hpath, hhost]
  rfl

/-- Witness for C4 at `https://github.com/octo/hello/pull/42`. -/
theorem github_url_resolution_witness :
    extract_pr_info "github.com" "/octo/hello/pull/42" =
      Except.ok (Platform.github, "octo", "hello", "42") :=
  github_url_resolution "github.com" "/octo/hello/pull/42" "octo" "hello" "42"
    (by decide) (by decide)

/-- C5 counterexample: the GitHub-host path `/a/b/c/pull/7` has five
segments, yet resolution succeeds (returning `pull` as the number) instead
of failing — the code only requires at least four segments. -/
theorem github_shape_counterexample :
    splitPath "/a/b/c/pull/7" = ["a", "b", "c", "pull", "7"] ∧
    extract_pr_info "github.com" "/a/b/c/pull/7" =
      Except.ok (Platform.github, "a", "b", "pull") :=
  ⟨by decide, rfl⟩

/-- C5 (amended): for a GitHub-host URL, resolution succeeds exactly when the
path has at least four segments and the second-to-last segment equals
`pull`; otherwise it fails with the invalid-URL error. -/
theorem github_shape_amended (netloc path : String)
    (hhost : strContains (toLowerStr netloc) "github.com" = true) :
    (∃ o r n, extract_pr_info netloc path = Except.ok (Platform.github, o, r, n)) ↔
      (4 ≤ (splitPath path).length ∧
        (splitPath path).getD ((splitPath path).length - 2) "" = "pull") := by
  unfold extract_pr_info
  simp only [hhost]
  rw [if_pos trivial]
  by_cases h1 : (splitPath path).length < 4
  · rw [if_pos h1]
    constructor
    · rintro ⟨o, r, n, h⟩
      exact Except.noConfusion h
    · rintro ⟨h4, -⟩
      omega
  · rw [if_neg h1]
    by_cases h2 : (splitPath path).getD ((splitPath path).length - 2) "" = "pull"
    · rw [if_neg (fun hne => hne h2)]
      exact ⟨fun _ => ⟨by omega, h2⟩, fun _ => ⟨_, _, _, rfl⟩⟩
    · rw [if_pos h2]
      constructor
      · rintro ⟨o, r, n, h⟩
        exact Except.noConfusion h
      · rintro ⟨-, hp⟩
        exact absurd hp h2

/-- Witness for C5 (amended): `/o/r/pull/1` satisfies the shape condition,
so resolution succeeds. -/
theorem github_shape_amended_witness :
    ∃ o r n, extract_pr_info "github.com" "/o/r/pull/1" =
      Except.ok (Platform.github, o, r, n) :=
  (github_shape_amended "github.com" "/o/r/pull/1" (by decide)).mpr (by decide)

/-- C6 counterexample: the path with segments `merge_requests`, `project`,
`-`, `merge_requests`, `5` has the claimed shape (`group` = the string
`merge_requests`), but resolution fails (Python `list.index` finds the
first occurrence, at position 0, and `0 < 2` triggers the error) instead
of returning `(gitlab, merge_requests, project, 5)`. -/
theorem gitlab_url_counterexample :
    extract_pr_info "gitlab.com" "/merge_requests/project/-/merge_requests/5" =
      Except.error "Invalid GitLab MR URL" ∧
    extract_pr_info "gitlab.com" "/merge_requests/project/-/merge_requests/5" ≠
      Except.ok (Platform.gitlab, "merge_requests", "project", "5") :=
  ⟨rfl, fun h => Except.noConfusion h⟩

/-- C6 (amended): for a URL whose lowercased network location contains
`gitlab.com` (and not `github.com`, which the code checks first), a path
with segments `group`, `project`, `-`, `merge_requests`, `n` resolves to
`(gitlab, group, project, n)`, and a nested path with segments `g1`, `g2`,
`project`, `-`, `merge_requests`, `n` resolves with owner
`g1/g2` — provided no leading segment is itself the literal
`merge_requests` (the code locates the first such segment). -/
theorem gitlab_url_resolution :
    (∀ netloc path g p n : String,
        strContains (toLowerStr netloc) "github.com" = false →
        strContains (toLowerStr netloc) "gitlab.com" = true →
        splitPath path = [g, p, "-", "merge_requests", n] →
        g ≠ "merge_requests" → p ≠ "merge_requests" →
        extract_pr_info netloc path = Except.ok (Platform.gitlab, g, p, n)) ∧
    (∀ netloc path g1 g2 p n : String,
        strContains (toLowerStr netloc) "github.com" = false →
        strContains (toLowerStr netloc) "gitlab.com" = true →
        splitPath path = [g1, g2, p, "-", "merge_requests", n] →
        g1 ≠ "merge_requests" → g2 ≠ "merge_requests" → p ≠ "merge_requests" →
        extract_pr_info netloc path =
          Except.ok (Platform.gitlab, joinSlash [g1, g2], p, n)) := by
  constructor
  · intro netloc path g p n h1 h2 hpath hg hp
    have hg' : (g == "merge_requests") = false := beq_eq_false_iff_ne.mpr hg
    have hp' : (p == "merge_requests") = false := beq_eq_false_iff_ne.mpr hp
    have hcont : ([g, p, "-", "merge_requests", n].contains "merge_requests") = true := by
      simp
    have hidx : List.findIdx (fun s => s == "merge_requests")
        [g, p, "-", "merge_requests", n] = 3 := by
      simp [List.findIdx_cons, hg', hp']
    unfold extract_pr_info
    simp only [hpath, h1, h2]
    rw [if_neg (fun hf => Bool.noConfusion hf), if_pos trivial,
      if_neg (fun hn => hn hcont)]
    simp only [hidx]
    rfl
  · intro netloc path g1 g2 p n h1 h2 hpath hg1 hg2 hp
    have hg1' : (g1 == "merge_requests") = false := beq_eq_false_iff_ne.mpr hg1
    have hg2' : (g2 == "merge_requests") = false := beq_eq_false_iff_ne.mpr hg2
    have hp' : (p == "merge_requests") = false := beq_eq_false_iff_ne.mpr hp
    have hcont : ([g1, g2, p, "-", "merge_requests", n].contains
        "merge_requests") = true := by
      simp
    have hidx : List.findIdx (fun s => s == "merge_requests")
        [g1, g2, p, "-", "merge_requests", n] = 4 := by
      simp [List.findIdx_cons, hg1', hg2', hp']
    unfold extract_pr_info
    simp only [hpath, h1, h2]
    rw [if_neg (fun hf => Bool.noConfusion hf), if_pos trivial,
      if_neg (fun hn => hn hcont)]
    simp only [hidx]
    rfl

/-- Witness for C6 (amended) at a plain and a nested GitLab MR URL. -/
theorem gitlab_url_resolution_witness :
    extract_pr_info "gitlab.com" "/grp/proj/-/merge_requests/7" =
      Except.ok (Platform.gitlab, "grp", "proj", "7") ∧
    extract_pr_info "gitlab.com" "/g1/g2/proj/-/merge_requests/9" =
      Except.ok (Platform.gitlab, joinSlash ["g1", "g2"], "proj", "9") :=
  ⟨gitlab_url_resolution.1 "gitlab.com" "/grp/proj/-/merge_requests/7"
      "grp" "proj" "7" (by decide) (by decide) (by decide) (by decide) (by decide),
    gitlab_url_resolution.2 "gitlab.com" "/g1/g2/proj/-/merge_requests/9"
      "g1" "g2" "proj" "9" (by decide) (by decide) (by decide) (by decide)
      (by decide) (by decide)⟩

/-- C7 counterexample: resolution validates nothing — the GitHub URL path
`/o/r/pull/abc` resolves successfully with the non-digit number `abc`, and
the GitLab path `/g/p/merge_requests/5` resolves successfully with an empty
owner, so the claimed `ReviewRequestRef` invariant fails. -/
theorem ref_invariant_counterexample :
    extract_pr_info "github.com" "/o/r/pull/abc" =
      Except.ok (Platform.github, "o", "r", "abc") ∧
    allDigits "abc" = false ∧
    extract_pr_info "gitlab.com" "/g/p/merge_requests/5" =
      Except.ok (Platform.gitlab, "", "g", "5") :=
  ⟨rfl, by decide, rfl⟩

/-- C7 (amended): successful resolution enforces no field invariant; on a
GitHub-host URL it simply echoes path segments — the platform is `github`,
the path has at least four segments, and owner, repo and number are
verbatim the first, second and fourth segments (which may be empty or
non-numeric). -/
theorem ref_fields_unvalidated (netloc path : String) (pf : Platform)
    (o r n : String)
    (hhost : strContains (toLowerStr netloc) "github.com" = true)
    (h : extract_pr_info netloc path = Except.ok (pf, o, r, n)) :
    pf = Platform.github ∧ 4 ≤ (splitPath path).length ∧
      o = (splitPath path).getD 0 "" ∧ r = (splitPath path).getD 1 "" ∧
      n = (splitPath path).getD 3 "" := by
  unfold extract_pr_info at h
  simp only [hhost] at h
  rw [if_pos trivial] at h
  by_cases h1 : (splitPath path).length < 4
  · rw [if_pos h1] at h
    exact Except.noConfusion h
  · rw [if_neg h1] at h
    by_cases h2 : (splitPath path).getD ((splitPath path).length - 2) "" = "pull"
    · rw [if_neg (fun hne => hne h2)] at h
      simp only [Except.ok.injEq, Prod.mk.injEq] at h
      exact ⟨h.1.symm, by omega, h.2.1.symm, h.2.2.1.symm, h.2.2.2.symm⟩
    · rw [if_pos h2] at h
      exact Except.noConfusion h

/-- Witness for C7 (amended) at the URL of the counterexample. -/
theorem ref_fields_unvalidated_witness :
    Platform.github = Platform.github ∧
      4 ≤ (splitPath "/o/r/pull/abc").length ∧
      "o" = (splitPath "/o/r/pull/abc").getD 0 "" ∧
      "r" = (splitPath "/o/r/pull/abc").getD 1 "" ∧
      "abc" = (splitPath "/o/r/pull/abc").getD 3 "" :=
  ref_fields_unvalidated "github.com" "/o/r/pull/abc" Platform.github
    "o" "r" "abc" (by decide) rfl


theorem length_append_str (s t : String) : (s ++ t).length = s.length + t.length := by
  show (s.data ++ t.data).length = s.data.length + t.data.length
  exact List.length_append _ _

/-- C9: under truncation mode, a path of at most 60 characters renders as
the path itself padded on the right with spaces to width 60 (the spec's
"left-padded to width 60", matching Python `ljust`), with no `...`
inserted — the number of `.` characters is unchanged. -/
theorem truncate_short_roundtrip (path : String) (h : path.length ≤ 60) :
    truncate_middle path 60 =
        path ++ String.mk (List.replicate (60 - path.length) ' ') ∧
    (truncate_middle path 60).data.count '.' = path.data.count '.' := by
  have he : truncate_middle path 60 = ljust path 60 := by
    unfold truncate_middle
    rw [if_pos h]
  refine ⟨he, ?_⟩
  rw [he]
  show (path.data ++ List.replicate (60 - path.length) ' ').count '.' = _
  rw [List.count_append]
  rw [show List.count ('.' : Char) (List.replicate (60 - path.length) ' ') = 0 from by
    rw [List.count_replicate]
    rfl]
  omega

/-- Witness for C9 at the 11-character path `src/main.go`. -/
theorem truncate_short_roundtrip_witness :
    truncate_middle "src/main.go" 60 =
        "src/main.go" ++
          String.mk (List.replicate (60 - "src/main.go".length) ' ') ∧
    (truncate_middle "src/main.go" 60).data.count '.' =
        "src/main.go".data.count '.' :=
  truncate_short_roundtrip "src/main.go" (by decide)

/-- C10: for every path, `truncate_middle` at the default width 60 returns
a string of exactly 60 characters; a path longer than 60 characters yields
a 28-character prefix, `...`, and a 28-character suffix (59 characters in
all), padded with one space to 60. -/
theorem truncate_fixed_width (path : String) :
    (truncate_middle path 60).length = 60 ∧
    (60 < path.length →
      truncate_middle path 60 =
          (strTake path 28 ++ "..." ++ strTakeEnd path 28) ++
            String.mk (List.replicate 1 ' ') ∧
        (strTake path 28).length = 28 ∧ (strTakeEnd path 28).length = 28) := by
  have hdata : path.data.length = path.length := rfl
  have hTake : 60 < path.length → (strTake path 28).length = 28 := by
    intro h60
    show (path.data.take 28).length = 28
    rw [List.length_take]
    omega
  have hEnd : 60 < path.length → (strTakeEnd path 28).length = 28 := by
    intro h60
    unfold strTakeEnd
    rw [if_neg (by omega)]
    show (path.data.drop (path.length - 28)).length = 28
    rw [List.length_drop]
    omega
  by_cases h : path.length ≤ 60
  · constructor
    · unfold truncate_middle
      rw [if_pos h]
      show (path.data ++ List.replicate (60 - path.length) ' ').length = 60
      rw [List.length_append, List.length_replicate]
      omega
    · intro h60
      omega
  · have h60 : 60 < path.length := by omega
    have hmid : (strTake path 28 ++ "..." ++ strTakeEnd path 28).length = 59 := by
      rw [length_append_str, length_append_str, hTake h60, hEnd h60]
      rfl
    constructor
    · unfold truncate_middle
      rw [if_neg h]
      show (ljust (strTake path 28 ++ "..." ++ strTakeEnd path 28) 60).length = 60
      unfold ljust
      rw [length_append_str, hmid]
      rfl
    · intro h60x
      refine ⟨?_, hTake h60, hEnd h60⟩
      unfold truncate_middle
      rw [if_neg h]
      show ljust (strTake path 28 ++ "..." ++ strTakeEnd path 28) 60 = _
      unfold ljust
      rw [hmid]

/-- Witness for C10 at a concrete 70-character path, discharging the
long-path hypothesis. -/
theorem truncate_fixed_width_witness :
    (truncate_middle
        "0123456789012345678901234567890123456789012345678901234567890123456789"
        60).length = 60 ∧
    (truncate_middle
          "0123456789012345678901234567890123456789012345678901234567890123456789"
          60 =
        (strTake
            "0123456789012345678901234567890123456789012345678901234567890123456789"
            28 ++ "..." ++
          strTakeEnd
            "0123456789012345678901234567890123456789012345678901234567890123456789"
            28) ++ String.mk (List.replicate 1 ' ') ∧
      (strTake
          "0123456789012345678901234567890123456789012345678901234567890123456789"
          28).length = 28 ∧
      (strTakeEnd
          "0123456789012345678901234567890123456789012345678901234567890123456789"
          28).length = 28) :=
  ⟨(truncate_fixed_width
      "0123456789012345678901234567890123456789012345678901234567890123456789").1,
    (truncate_fixed_width
      "0123456789012345678901234567890123456789012345678901234567890123456789").2
      (by decide)⟩

end PrDelta
